import Mathlib

/-!
Shallow embedding of `simulation.py`: a discrete-event simulation of employee
entry through a bank of `num_scanners` identical scanners (a multi-server FIFO
queue with constant service time), followed by per-run statistics aggregation
and a capacity sweep.

Times are modelled as rationals (`ℚ`); Python floats are idealised as exact
arithmetic. The simpy cooperative scheduler is embedded by its observable
queueing semantics: with arrival times sorted ascending (the program sorts
them), a FIFO resource of capacity `c` and a constant service time `s`, the
service-start instants satisfy the standard recurrence
`start i = a i` for `i < c` and `start i = max (a i) (start (i - c) + s)`
otherwise, because grants happen in strict queue order and the `i`-th grant
must wait for the `(i - c)`-th departure (departures occur in start order,
service times being equal). Python-level failures (`ValueError` from
`simpy.Resource` on non-positive capacity, `ValueError` from negative
timeouts, `ValueError` of `max([])` and `ZeroDivisionError` of the statistics
lines) are modelled with an `Except` error type using the two error kinds the
design documentation assigns to them.
-/

namespace SecurityScan

/-- Error kinds of the simulation run. `InvalidParameter` models the
`ValueError` raised by `simpy.Resource` for a non-positive capacity and by
simpy timeouts for a negative delay; `EmptyRunError` models the `ValueError`
of `max([])` and the `ZeroDivisionError` of the statistics lines when there
are no observations or the run span is zero. -/
inductive SimError where
  | InvalidParameter : SimError
  | EmptyRunError : SimError
deriving DecidableEq

/-- The tuple returned by `run_simulation` (source line 62):
`total_entry_time / 60, average_wait_time / 60, avg_queue_length, throughput,
utilization`. The first two fields are the seconds-level quantities divided
by 60 (minutes); `throughput_per_min` is `num_employees / (total_entry_time / 60)`
(entities per minute). -/
structure RunResult where
  total_entry_time_min : ℚ
  average_wait_time_min : ℚ
  avg_queue_length : ℚ
  throughput_per_min : ℚ
  utilization : ℚ
deriving DecidableEq

/-- Python `random.uniform(a, b) = a + (b - a) * random()`, with the draw
`random()` passed in as `x`. Note no check that `a < b` is performed: for a
reversed window the value simply lands in the reversed interval. -/
def uniform (a b x : ℚ) : ℚ := a + (b - a) * x

/-- Source line 13:
`sorted([random.uniform(arrival_interval_start, arrival_interval_end) for _ in range(num_employees)])`.
The seeded pseudo-random source is modelled as the stream `u` of its
successive draws in `[0, 1)`; `sorted` is a stable comparison sort. -/
def arrival_times (N : ℕ) (T0 T1 : ℚ) (u : ℕ → ℚ) : List ℚ :=
  List.insertionSort (· ≤ ·) ((List.range N).map (fun i => uniform T0 T1 (u i)))

/-- Fuel-carrying form of the FIFO service-start recurrence, structural so
that concrete runs compute. With fuel `i + 1` and capacity `c ≥ 1` the fuel
never runs out (each step lowers the index by `c ≥ 1`). -/
def startTimeAux (a : ℕ → ℚ) (s : ℚ) (c : ℕ) : ℕ → ℕ → ℚ
  | 0, _ => 0
  | fuel + 1, i =>
    if i < c then a i else max (a i) (startTimeAux a s c fuel (i - c) + s)

/-- The logical time at which entity `i` is granted a scanner slot
(`yield request` returns, source line 39), for sorted arrivals `a`, service
time `s` and capacity `c`. -/
def startTime (a : ℕ → ℚ) (s : ℚ) (c : ℕ) (i : ℕ) : ℚ :=
  startTimeAux a s c (i + 1) i

/-- Source line 40: `wait_time = env.now - queue_entry_time`, the time entity
`i` spends between requesting a scanner (at its arrival) and being granted
one. -/
def waitTime (a : ℕ → ℚ) (s : ℚ) (c : ℕ) (i : ℕ) : ℚ :=
  startTime a s c i - a i

/-- Source line 43: `len(scanner.queue)` read by entity `i` at the instant it
begins service. In simpy a triggered request leaves `scanner.queue`
synchronously during the release that grants it, and all same-instant
releases are processed before any granted process resumes (their events carry
older sequence numbers), while arrival timeouts carry older sequence numbers
than any service timeout; hence the queue seen by `i` holds exactly the
entities that have arrived by `startTime i` but start strictly later. -/
def queueLenAt (a : ℕ → ℚ) (s : ℚ) (c : ℕ) (N i : ℕ) : ℕ :=
  ((List.range N).filter
    (fun j => decide (a j ≤ startTime a s c i) &&
      decide (startTime a s c i < startTime a s c j))).length

/-- The arrival list viewed as a function on indices (out-of-range reads
never occur on the paths the theorems take). -/
def arrivalFn (a : List ℚ) : ℕ → ℚ := fun i => a.getD i 0

/-- Python `max` on a non-empty list (a left fold of binary `max` over the
tail); the `[]` case is unreachable in the source, where `max([])` raises. -/
def pythonMax : List ℚ → ℚ
  | [] => 0
  | x :: xs => xs.foldl max x

/-- The list `wait_times` after all entity processes have completed: one
sample per entity, appended in grant order (source line 41). -/
def waitSamples (a : List ℚ) (s : ℚ) (c : ℕ) : List ℚ :=
  (List.range a.length).map (fun i => waitTime (arrivalFn a) s c i)

/-- The list `queue_lengths` after all entity processes have completed: one
sample per entity (source line 43). -/
def queueSamples (a : List ℚ) (s : ℚ) (c : ℕ) : List ℕ :=
  (List.range a.length).map (fun i => queueLenAt (arrivalFn a) s c a.length i)

/-- The accumulator `total_scan_time` at scheduler termination: each of the
`N` entity processes adds one `scan_time_per_employee` on completing service
(source line 46). -/
def total_scan_time (N : ℕ) (s : ℚ) : ℚ :=
  ((List.range N).map (fun _ => s)).sum

/-- Source line 56:
`total_entry_time = max(arrival_times) + max(wait_times) + scan_time_per_employee`
(in seconds; the returned result divides this by 60). -/
def total_entry_time (a : List ℚ) (s : ℚ) (c : ℕ) : ℚ :=
  pythonMax a + pythonMax (waitSamples a s c) + s

/-- The true makespan: the logical time of the last departure, i.e. the
maximum over entities of `startTime i + s`. The source does not compute
this; it is needed to compare the span formula of the source against it. -/
def makespan (a : List ℚ) (s : ℚ) (c : ℕ) : ℚ :=
  pythonMax ((List.range a.length).map (fun i => startTime (arrivalFn a) s c i + s))

/-- Source lines 27-62, `run_simulation(num_scanners)` with the module-level
`arrival_times` and `scan_time_per_employee` passed explicitly. The guards
reproduce, in evaluation order, the Python failure points: `simpy.Resource`
rejects a non-positive capacity; `env.run()` fails on a negative timeout
delay (negative arrival or service time); `max(arrival_times)` fails on an
empty list; the `throughput` / `utilization` divisions fail when the span is
zero. -/
def run_simulation (a : List ℚ) (s : ℚ) (c : ℕ) : Except SimError RunResult :=
  if c = 0 then .error .InvalidParameter
  else if a.any (fun t => decide (t < 0)) || decide (s < 0) then
    .error .InvalidParameter
  else if a.isEmpty then .error .EmptyRunError
  else if total_entry_time a s c = 0 then .error .EmptyRunError
  else
    .ok { total_entry_time_min := total_entry_time a s c / 60
          average_wait_time_min := ((waitSamples a s c).sum / a.length) / 60
          avg_queue_length :=
            ((queueSamples a s c).map (fun q => (q : ℚ))).sum / a.length
          throughput_per_min := (a.length : ℚ) / (total_entry_time a s c / 60)
          utilization :=
            total_scan_time a.length s / ((c : ℚ) * total_entry_time a s c) }

/-- Source line 66: the scanner counts swept by the driving loop. -/
def capacitiesSweep : List ℕ := [5, 10, 20, 30, 35]

/-- One iteration of the driving loop (source lines 66-73): run the
simulation for one scanner count against the current arrival list and append
the result; the arrival list is threaded through unchanged, mirroring that
the loop body never writes `arrival_times`. -/
def sweepStep (st : List ℚ × List RunResult) (c : ℕ) :
    Except SimError (List ℚ × List RunResult) :=
  (run_simulation st.1 8 c).map (fun r => (st.1, st.2 ++ [r]))

/-- The full driving loop over `capacitiesSweep`, started from the
module-level arrival list and an empty results store. -/
def runSweep (a : List ℚ) : Except SimError (List ℚ × List RunResult) :=
  capacitiesSweep.foldlM sweepStep (a, [])

/-! ## Lemmas about `pythonMax` -/

theorem le_foldl_max (x : ℚ) (xs : List ℚ) : x ≤ xs.foldl max x := by
  induction xs generalizing x with
  | nil => exact le_refl x
  | cons y ys ih => exact le_trans (le_max_left x y) (ih (max x y))

theorem mem_le_foldl_max {y : ℚ} :
    ∀ {xs : List ℚ} (x : ℚ), y ∈ xs → y ≤ xs.foldl max x
  | [], _, hy => absurd hy (List.not_mem_nil y)
  | z :: zs, x, hy => by
    rcases List.mem_cons.mp hy with h | h
    · subst h
      exact le_trans (le_max_right x y) (le_foldl_max _ _)
    · exact mem_le_foldl_max (max x z) h

theorem foldl_max_mem : ∀ (xs : List ℚ) (x : ℚ), xs.foldl max x ∈ x :: xs
  | [], x => List.mem_singleton_self x
  | y :: ys, x => by
    have h := foldl_max_mem ys (max x y)
    simp only [List.foldl_cons]
    rcases List.mem_cons.mp h with h1 | h1
    · rcases max_choice x y with h2 | h2
      · rw [h1, h2]
        exact List.mem_cons_self _ _
      · rw [h1, h2]
        exact List.mem_cons_of_mem _ (List.mem_cons_self _ _)
    · exact List.mem_cons_of_mem _ (List.mem_cons_of_mem _ h1)

theorem le_pythonMax {y : ℚ} {l : List ℚ} (hy : y ∈ l) : y ≤ pythonMax l := by
  cases l with
  | nil => cases hy
  | cons x xs =>
    rcases List.mem_cons.mp hy with h | h
    · subst h
      exact le_foldl_max _ _
    · exact mem_le_foldl_max _ h

theorem pythonMax_mem {l : List ℚ} (hl : l ≠ []) : pythonMax l ∈ l := by
  cases l with
  | nil => exact absurd rfl hl
  | cons x xs => exact foldl_max_mem xs x

/-! ## Lemmas about the service-start recurrence -/

theorem startTimeAux_congr {a : ℕ → ℚ} {s : ℚ} {c : ℕ} (hc : 0 < c) :
    ∀ (f g i : ℕ), i < f → i < g →
      startTimeAux a s c f i = startTimeAux a s c g i := by
  intro f
  induction f with
  | zero => exact fun g i hf _ => absurd hf (Nat.not_lt_zero i)
  | succ f ih =>
    intro g i hf hg
    cases g with
    | zero => exact absurd hg (Nat.not_lt_zero i)
    | succ g =>
      simp only [startTimeAux]
      by_cases hic : i < c
      · simp [hic]
      · simp only [if_neg hic]
        have hi0 : 0 < i := lt_of_lt_of_le hc (Nat.le_of_not_lt hic)
        have hsub : i - c < i := Nat.sub_lt hi0 hc
        rw [ih g (i - c) (lt_of_lt_of_le hsub (Nat.lt_succ_iff.mp hf))
          (lt_of_lt_of_le hsub (Nat.lt_succ_iff.mp hg))]

/-- Unfolding rule of `startTime` for a positive capacity: the FIFO
service-start recurrence. -/
theorem startTime_eq {a : ℕ → ℚ} {s : ℚ} {c : ℕ} (hc : 0 < c) (i : ℕ) :
    startTime a s c i =
      if i < c then a i else max (a i) (startTime a s c (i - c) + s) := by
  show startTimeAux a s c (i + 1) i = _
  simp only [startTimeAux]
  by_cases hic : i < c
  · simp [hic]
  · simp only [if_neg hic]
    have hi0 : 0 < i := lt_of_lt_of_le hc (Nat.le_of_not_lt hic)
    rw [startTimeAux_congr hc i (i - c + 1) (i - c) (Nat.sub_lt hi0 hc)
      (Nat.lt_succ_self _)]
    rfl

/-- No entity is granted a scanner before it arrives. -/
theorem arrival_le_startTime {a : ℕ → ℚ} {s : ℚ} {c : ℕ} (hc : 0 < c) (i : ℕ) :
    a i ≤ startTime a s c i := by
  rw [startTime_eq hc]
  by_cases hic : i < c
  · simp [hic]
  · simp only [if_neg hic]
    exact le_max_left _ _

/-- The grant of entity `i` comes at least one service duration after the
grant of entity `i - c`. -/
theorem startTime_step {a : ℕ → ℚ} {s : ℚ} {c : ℕ} (hc : 0 < c) {i : ℕ}
    (hi : c ≤ i) : startTime a s c (i - c) + s ≤ startTime a s c i := by
  conv_rhs => rw [startTime_eq hc i]
  rw [if_neg (Nat.not_lt.mpr hi)]
  exact le_max_right _ _

/-- Iterating `startTime_step` along a residue class modulo the capacity. -/
theorem startTime_chain {a : ℕ → ℚ} {s : ℚ} {c : ℕ} (hc : 0 < c) (r : ℕ) :
    ∀ m : ℕ, startTime a s c r + (m : ℚ) * s ≤ startTime a s c (r + m * c) := by
  intro m
  induction m with
  | zero => simp
  | succ m ih =>
    have hmul : (m + 1) * c = m * c + c := Nat.succ_mul m c
    have h1 : c ≤ r + (m + 1) * c := by
      rw [hmul, ← Nat.add_assoc]
      exact Nat.le_add_left c (r + m * c)
    have h2 : r + (m + 1) * c - c = r + m * c := by
      rw [hmul]
      generalize m * c = q
      omega
    have h3 := startTime_step (a := a) (s := s) hc h1
    rw [h2] at h3
    push_cast
    push_cast at ih
    linarith

/-- FIFO order of grants: with sorted arrivals, an entity earlier in the
arrival sequence is granted a scanner no later than a later one. -/
theorem startTime_mono {a : ℕ → ℚ} {s : ℚ} {c N : ℕ} (hc : 0 < c)
    (ha : ∀ i j, i ≤ j → j < N → a i ≤ a j) :
    ∀ j i, i ≤ j → j < N → startTime a s c i ≤ startTime a s c j := by
  intro j
  induction j using Nat.strong_induction_on with
  | _ j ihj =>
    intro i hij hjN
    by_cases hjc : j < c
    · rw [startTime_eq hc i, startTime_eq hc j, if_pos (lt_of_le_of_lt hij hjc),
        if_pos hjc]
      exact ha i j hij hjN
    · by_cases hic : i < c
      · rw [startTime_eq hc i, if_pos hic, startTime_eq hc j, if_neg hjc]
        exact le_trans (ha i j hij hjN) (le_max_left _ _)
      · rw [startTime_eq hc i, if_neg hic, startTime_eq hc j, if_neg hjc]
        have hjj : j - c < j :=
          Nat.sub_lt (lt_of_lt_of_le hc (Nat.le_of_not_lt hjc)) hc
        have h1 : startTime a s c (i - c) ≤ startTime a s c (j - c) :=
          ihj (j - c) hjj (i - c) (Nat.sub_le_sub_right hij c)
            (lt_trans hjj hjN)
        exact max_le_max (ha i j hij hjN) (add_le_add_right h1 s)

/-! ## Lemmas about the arrival list viewed as a function -/

theorem arrivalFn_mem {a : List ℚ} {i : ℕ} (hi : i < a.length) :
    arrivalFn a i ∈ a := by
  unfold arrivalFn
  rw [List.getD_eq_getElem?_getD, List.getElem?_eq_getElem hi, Option.getD_some]
  exact List.getElem_mem hi

theorem arrivalFn_nonneg {a : List ℚ} (h : ∀ x ∈ a, 0 ≤ x) (k : ℕ) :
    0 ≤ arrivalFn a k := by
  by_cases hk : k < a.length
  · exact h _ (arrivalFn_mem hk)
  · unfold arrivalFn
    rw [List.getD_eq_default _ _ (Nat.le_of_not_lt hk)]

theorem sorted_arrivalFn_mono {a : List ℚ} (hs : List.Sorted (· ≤ ·) a) :
    ∀ i j, i ≤ j → j < a.length → arrivalFn a i ≤ arrivalFn a j := by
  intro i j hij hj
  have hi : i < a.length := lt_of_le_of_lt hij hj
  unfold arrivalFn
  rw [List.getD_eq_getElem?_getD, List.getElem?_eq_getElem hi,
    List.getD_eq_getElem?_getD, List.getElem?_eq_getElem hj, Option.getD_some,
    Option.getD_some]
  rcases Nat.eq_or_lt_of_le hij with h | h
  · subst h
    exact le_refl _
  · exact List.Sorted.rel_get_of_lt hs (Fin.mk_lt_mk.mpr h)

theorem waitTime_mem_samples {a : List ℚ} {s : ℚ} {c i : ℕ}
    (hi : i < a.length) :
    waitTime (arrivalFn a) s c i ∈ waitSamples a s c := by
  unfold waitSamples
  exact List.mem_map.mpr ⟨i, List.mem_range.mpr hi, rfl⟩

theorem waitSamples_nonneg {a : List ℚ} {s : ℚ} {c : ℕ} (hc : 0 < c)
    {w : ℚ} (hw : w ∈ waitSamples a s c) : 0 ≤ w := by
  rcases List.mem_map.mp hw with ⟨i, _, rfl⟩
  unfold waitTime
  have := arrival_le_startTime (a := arrivalFn a) (s := s) hc i
  linarith

theorem total_scan_time_eq (N : ℕ) (s : ℚ) :
    total_scan_time N s = (N : ℚ) * s := by
  unfold total_scan_time
  induction N with
  | zero => simp
  | succ n ih =>
    rw [List.range_succ, List.map_append, List.sum_append]
    push_cast
    rw [ih]
    simp
    ring

/-! ## The aggregate busy time is bounded by capacity times run span -/

/-- If the residue class of `r` modulo `c` has `m + 1` members below `N`,
its largest member `r + m * c` is below `N`. -/
theorem fiber_last_lt {N c r m : ℕ}
    (hcard : ((Finset.range N).filter (fun i => i % c = r)).card = m + 1) :
    r + m * c < N := by
  by_contra hNle
  push_neg at hNle
  have hsub : (Finset.range N).filter (fun i => i % c = r) ⊆
      (Finset.range m).image (fun t => r + t * c) := by
    intro i hi
    rcases Finset.mem_filter.mp hi with ⟨hiN, hir⟩
    have hiN2 : i < N := Finset.mem_range.mp hiN
    have hieq : i = r + (i / c) * c := by
      conv_lhs => rw [← Nat.div_add_mod i c]
      rw [hir]
      ring
    have htlt : i / c < m := by
      by_contra htge
      push_neg at htge
      have hmc : r + m * c ≤ r + (i / c) * c :=
        Nat.add_le_add_left (Nat.mul_le_mul_right c htge) r
      have : N ≤ i := le_trans hNle (le_trans hmc (le_of_eq hieq.symm))
      exact absurd hiN2 (Nat.not_lt.mpr this)
    exact Finset.mem_image.mpr ⟨i / c, Finset.mem_range.mpr htlt, hieq.symm⟩
  have h1 := Finset.card_le_card hsub
  have h2 := Finset.card_image_le (s := Finset.range m) (f := fun t => r + t * c)
  rw [hcard] at h1
  rw [Finset.card_range] at h2
  omega

/-- Key capacity bound: the cumulative busy time `N * s` never exceeds
capacity times the aggregated span `total_entry_time`. Services of entities
in one residue class modulo `c` are at least `s` apart, so a class of size
`k` forces a span of at least `k * s`; summing the `c` classes bounds
`N * s`. -/
theorem busy_le_capacity_span {a : List ℚ} {s : ℚ} {c : ℕ} (hc : 0 < c)
    (hnonneg : ∀ x ∈ a, 0 ≤ x) (hs : 0 ≤ s) (hne : a ≠ []) :
    (a.length : ℚ) * s ≤ (c : ℚ) * total_entry_time a s c := by
  have hmaxA : (0 : ℚ) ≤ pythonMax a := hnonneg _ (pythonMax_mem hne)
  have hKne : waitSamples a s c ≠ [] := by
    unfold waitSamples
    simp only [ne_eq, List.map_eq_nil_iff, List.range_eq_nil]
    intro h
    exact hne (List.length_eq_zero.mp h)
  have hmaxW : (0 : ℚ) ≤ pythonMax (waitSamples a s c) :=
    waitSamples_nonneg hc (pythonMax_mem hKne)
  have hT0 : (0 : ℚ) ≤ total_entry_time a s c := by
    unfold total_entry_time
    linarith
  have hclass : ∀ r ∈ Finset.range c,
      (((Finset.range a.length).filter (fun i => i % c = r)).card : ℚ) * s ≤
        total_entry_time a s c := by
    intro r _
    rcases hk : ((Finset.range a.length).filter (fun i => i % c = r)).card with
      _ | m
    · simp [hT0]
    · have hlt : r + m * c < a.length := fiber_last_lt hk
      have hchain := startTime_chain (a := arrivalFn a) (s := s) hc r m
      have hr0 : (0 : ℚ) ≤ startTime (arrivalFn a) s c r :=
        le_trans (arrivalFn_nonneg hnonneg r) (arrival_le_startTime hc r)
      have hsplit : startTime (arrivalFn a) s c (r + m * c) =
          arrivalFn a (r + m * c) + waitTime (arrivalFn a) s c (r + m * c) := by
        unfold waitTime
        ring
      have hA : arrivalFn a (r + m * c) ≤ pythonMax a :=
        le_pythonMax (arrivalFn_mem hlt)
      have hW : waitTime (arrivalFn a) s c (r + m * c) ≤
          pythonMax (waitSamples a s c) :=
        le_pythonMax (waitTime_mem_samples hlt)
      unfold total_entry_time
      push_cast
      nlinarith [hchain, hr0, hsplit, hA, hW]
  have hcount :=
    Finset.card_eq_sum_card_fiberwise (s := Finset.range a.length)
      (t := Finset.range c) (f := fun i => i % c)
      (fun x _ => Finset.mem_range.mpr (Nat.mod_lt x hc))
  rw [Finset.card_range] at hcount
  have hNs : (a.length : ℚ) * s =
      ∑ r ∈ Finset.range c,
        (((Finset.range a.length).filter (fun i => i % c = r)).card : ℚ) * s := by
    rw [← Finset.sum_mul]
    congr 1
    exact_mod_cast hcount
  rw [hNs]
  calc ∑ r ∈ Finset.range c,
        (((Finset.range a.length).filter (fun i => i % c = r)).card : ℚ) * s ≤
      ∑ _r ∈ Finset.range c, total_entry_time a s c :=
        Finset.sum_le_sum hclass
    _ = (c : ℚ) * total_entry_time a s c := by
        rw [Finset.sum_const, Finset.card_range, nsmul_eq_mul]

/-! ## Inversion of a successful run -/

/-- Unfolding a successful `run_simulation`: all guards passed, and the
returned statistics are the aggregation formulas of source lines 56-62. -/
theorem run_simulation_ok {a : List ℚ} {s : ℚ} {c : ℕ} {r : RunResult}
    (h : run_simulation a s c = Except.ok r) :
    c ≠ 0 ∧ (∀ x ∈ a, 0 ≤ x) ∧ 0 ≤ s ∧ a ≠ [] ∧
      total_entry_time a s c ≠ 0 ∧
      r = ⟨total_entry_time a s c / 60,
           (waitSamples a s c).sum / (a.length : ℚ) / 60,
           ((queueSamples a s c).map (fun q => (q : ℚ))).sum / (a.length : ℚ),
           (a.length : ℚ) / (total_entry_time a s c / 60),
           total_scan_time a.length s / ((c : ℚ) * total_entry_time a s c)⟩ := by
  unfold run_simulation at h
  split_ifs at h with h1 h2 h3 h4
  have h5 : ∀ x ∈ a, 0 ≤ x := by
    intro x hx
    by_contra hneg
    push_neg at hneg
    apply h2
    rw [Bool.or_eq_true]
    exact Or.inl (List.any_eq_true.mpr ⟨x, hx, decide_eq_true hneg⟩)
  refine ⟨h1, h5, ?_, ?_, h4, ?_⟩
  · by_contra hneg
    push_neg at hneg
    apply h2
    rw [Bool.or_eq_true]
    exact Or.inr (decide_eq_true hneg)
  · intro hnil
    rw [hnil] at h3
    exact h3 rfl
  · exact ((Except.ok.injEq _ _).mp h).symm

/-! ## The claims -/

/-- Claim C3: for every entity count `N ≥ 1` and window `[T0, T1)` with
`T1 > T0`, with the pseudo-random draws lying in `[0, 1)`, the arrival
generator produces a sequence of exactly `N` values, each satisfying
`T0 ≤ v < T1`, sorted into non-decreasing order. -/
theorem C3_arrival_generator (N : ℕ) (T0 T1 : ℚ) (u : ℕ → ℚ) (_hN : 1 ≤ N)
    (hT : T0 < T1) (hu : ∀ i, 0 ≤ u i ∧ u i < 1) :
    (arrival_times N T0 T1 u).length = N ∧
    (∀ v ∈ arrival_times N T0 T1 u, T0 ≤ v ∧ v < T1) ∧
    List.Sorted (· ≤ ·) (arrival_times N T0 T1 u) := by
  have hperm := List.perm_insertionSort (· ≤ ·)
      ((List.range N).map (fun i => uniform T0 T1 (u i)))
  refine ⟨?_, ?_, List.sorted_insertionSort _ _⟩
  · unfold arrival_times
    rw [hperm.length_eq, List.length_map, List.length_range]
  · intro v hv
    have hv2 : v ∈ (List.range N).map (fun i => uniform T0 T1 (u i)) :=
      hperm.mem_iff.mp hv
    rcases List.mem_map.mp hv2 with ⟨i, _, rfl⟩
    unfold uniform
    constructor
    · nlinarith [(hu i).1, (hu i).2]
    · nlinarith [(hu i).1, (hu i).2]

/-- Witness for `C3_arrival_generator` at `N = 1`, window `[0, 2400)`, and
the constant-zero draw stream. -/
theorem C3_witness :
    (arrival_times 1 0 2400 (fun _ => 0)).length = 1 ∧
    (∀ v ∈ arrival_times 1 0 2400 (fun _ => 0), 0 ≤ v ∧ v < 2400) ∧
    List.Sorted (· ≤ ·) (arrival_times 1 0 2400 (fun _ => 0)) :=
  C3_arrival_generator 1 0 2400 (fun _ => 0) (by norm_num) (by norm_num)
    (fun i => by norm_num)

/-- Claim C7: in every run, if entity `i` precedes entity `j` in the sorted
arrival sequence (index order, which is generation order and breaks ties of
identical arrival times), then `i` is granted a scanner slot at a logical
time no later than `j`, whether or not both are simultaneously queued. -/
theorem C7_fifo_order (a : List ℚ) (s : ℚ) (c i j : ℕ) (hc : 0 < c)
    (hsort : List.Sorted (· ≤ ·) a) (hij : i ≤ j) (hj : j < a.length) :
    startTime (arrivalFn a) s c i ≤ startTime (arrivalFn a) s c j :=
  startTime_mono hc (sorted_arrivalFn_mono hsort) j i hij hj

/-- Witness for `C7_fifo_order` on arrivals `[0, 1, 2]`, one scanner,
service time 8, entities 0 and 2. -/
theorem C7_witness :
    startTime (arrivalFn [0, 1, 2]) 8 1 0 ≤ startTime (arrivalFn [0, 1, 2]) 8 1 2 :=
  C7_fifo_order [0, 1, 2] 8 1 0 2 (by norm_num) (by decide) (by norm_num)
    (by norm_num)

/-- Claim C8: two runs executed with the identical seed (modelled as
identical pseudo-random draw streams up to the entity count), entity count,
window, service duration, and capacity derive exactly equal arrival
sequences and exactly equal RunResults (hence every aggregated statistic is
exactly equal). -/
theorem C8_determinism (N : ℕ) (T0 T1 s : ℚ) (c : ℕ) (u1 u2 : ℕ → ℚ)
    (h : ∀ i, i < N → u1 i = u2 i) :
    arrival_times N T0 T1 u1 = arrival_times N T0 T1 u2 ∧
    run_simulation (arrival_times N T0 T1 u1) s c =
      run_simulation (arrival_times N T0 T1 u2) s c := by
  have harr : arrival_times N T0 T1 u1 = arrival_times N T0 T1 u2 := by
    unfold arrival_times
    congr 1
    apply List.map_congr_left
    intro i hi
    rw [h i (List.mem_range.mp hi)]
  exact ⟨harr, by rw [harr]⟩

/-- Witness for `C8_determinism`: two syntactically different but pointwise
equal draw streams yield the same arrivals and the same run result. -/
theorem C8_witness :
    arrival_times 2 0 2400 (fun _ => 0) = arrival_times 2 0 2400 (fun _ => 0 + 0) ∧
    run_simulation (arrival_times 2 0 2400 (fun _ => 0)) 8 1 =
      run_simulation (arrival_times 2 0 2400 (fun _ => 0 + 0)) 8 1 :=
  C8_determinism 2 0 2400 8 1 (fun _ => 0) (fun _ => 0 + 0)
    (fun i _ => by norm_num)

/-- Claim C10: when the scheduler terminates, the accumulated
`total_scan_time` equals entity count times service duration exactly, so the
utilization of a completed run equals
`(entity count * service duration) / (capacity * total_entry_time)`, and the
wait-time and queue-length sample lists each hold exactly one entry per
entity. -/
theorem C10_busy_time (a : List ℚ) (s : ℚ) (c : ℕ) (r : RunResult)
    (h : run_simulation a s c = Except.ok r) :
    (waitSamples a s c).length = a.length ∧
    (queueSamples a s c).length = a.length ∧
    total_scan_time a.length s = (a.length : ℚ) * s ∧
    r.utilization = (a.length : ℚ) * s / ((c : ℚ) * total_entry_time a s c) := by
  rcases run_simulation_ok h with ⟨-, -, -, -, -, hr⟩
  refine ⟨?_, ?_, total_scan_time_eq _ _, ?_⟩
  · unfold waitSamples
    rw [List.length_map, List.length_range]
  · unfold queueSamples
    rw [List.length_map, List.length_range]
  · rw [hr]
    show total_scan_time a.length s / _ = _
    rw [total_scan_time_eq]

/-- Witness for `C10_busy_time` on the completed run with arrivals
`[0, 1, 2]`, service time 8 and one scanner. -/
theorem C10_witness :
    (waitSamples [0, 1, 2] 8 1).length = ([0, 1, 2] : List ℚ).length ∧
    (queueSamples [0, 1, 2] 8 1).length = ([0, 1, 2] : List ℚ).length ∧
    total_scan_time ([0, 1, 2] : List ℚ).length 8 =
      ((([0, 1, 2] : List ℚ).length : ℕ) : ℚ) * 8 ∧
    (RunResult.mk (2/5) (7/60) (1/3) (15/2) 1).utilization =
      ((([0, 1, 2] : List ℚ).length : ℕ) : ℚ) * 8 /
        (((1 : ℕ) : ℚ) * total_entry_time [0, 1, 2] 8 1) :=
  C10_busy_time [0, 1, 2] 8 1 ⟨2/5, 7/60, 1/3, 15/2, 1⟩ (by
    norm_num [run_simulation, total_entry_time, pythonMax, waitSamples, queueSamples,
      total_scan_time, waitTime, queueLenAt, startTime, startTimeAux, arrivalFn,
      List.range_succ, List.filter])

/-- Claim C4: aggregation attempted with zero wait-time observations (empty
arrival list, i.e. entity count 0) or with a zero total run span fails with
the error kind the design calls `EmptyRunError` (in Python, the `ValueError`
of `max([])` resp. the `ZeroDivisionError` of the statistics lines) instead
of producing a NaN value. -/
theorem C4_empty_run (a : List ℚ) (s : ℚ) (c : ℕ) (hc : c ≠ 0)
    (ha : ∀ x ∈ a, 0 ≤ x) (hs : 0 ≤ s)
    (h : a = [] ∨ total_entry_time a s c = 0) :
    run_simulation a s c = Except.error SimError.EmptyRunError := by
  unfold run_simulation
  rw [if_neg hc]
  have hguard : (a.any (fun t => decide (t < 0)) || decide (s < 0)) = false := by
    simp only [Bool.or_eq_false_iff, List.any_eq_false, decide_eq_true_eq,
      decide_eq_false_iff_not, not_lt]
    exact ⟨fun x hx => ha x hx, hs⟩
  rw [hguard]
  simp only [Bool.false_eq_true, if_false]
  by_cases hemp : a.isEmpty
  · rw [if_pos hemp]
  · rw [if_neg hemp]
    rcases h with h | h
    · subst h
      exact absurd rfl hemp
    · rw [if_pos h]

/-- Witness for `C4_empty_run`: one entity arriving at 0 with service time
0 gives a zero run span, and aggregation fails. -/
theorem C4_witness :
    run_simulation [0] 0 1 = Except.error SimError.EmptyRunError :=
  C4_empty_run [0] 0 1 (by norm_num) (by norm_num) (by norm_num)
    (Or.inr (by norm_num [total_entry_time, pythonMax, waitSamples, waitTime,
      startTime, startTimeAux, arrivalFn, List.range_succ]))

/-- Claim C6: for every valid completed run (positive service duration, and
the guards of `run_simulation` enforce capacity ≥ 1, entity count ≥ 1 and
non-negative arrivals), the utilization in the result lies in `[0, 1]`. -/
theorem C6_utilization_unit (a : List ℚ) (s : ℚ) (c : ℕ)
    (r : RunResult) (hs : 0 < s) (hrun : run_simulation a s c = Except.ok r) :
    0 ≤ r.utilization ∧ r.utilization ≤ 1 := by
  rcases run_simulation_ok hrun with ⟨hc0, hnonneg, -, hne, hTne, hr⟩
  have hs0 : (0 : ℚ) ≤ s := le_of_lt hs
  have hc : 0 < c := Nat.pos_of_ne_zero hc0
  have hT0 : (0 : ℚ) ≤ total_entry_time a s c := by
    have hmaxA : (0 : ℚ) ≤ pythonMax a := hnonneg _ (pythonMax_mem hne)
    have hKne : waitSamples a s c ≠ [] := by
      unfold waitSamples
      simp only [ne_eq, List.map_eq_nil_iff, List.range_eq_nil]
      intro h
      exact hne (List.length_eq_zero.mp h)
    have hmaxW : (0 : ℚ) ≤ pythonMax (waitSamples a s c) :=
      waitSamples_nonneg hc (pythonMax_mem hKne)
    unfold total_entry_time
    linarith
  have hTpos : (0 : ℚ) < total_entry_time a s c :=
    lt_of_le_of_ne hT0 (Ne.symm hTne)
  have hcT : (0 : ℚ) < (c : ℚ) * total_entry_time a s c := by
    apply mul_pos _ hTpos
    exact_mod_cast hc
  have hutil : r.utilization =
      (a.length : ℚ) * s / ((c : ℚ) * total_entry_time a s c) := by
    rw [hr]
    show total_scan_time a.length s / _ = _
    rw [total_scan_time_eq]
  rw [hutil]
  constructor
  · exact div_nonneg (mul_nonneg (Nat.cast_nonneg _) hs0) (le_of_lt hcT)
  · rw [div_le_one hcT]
    exact busy_le_capacity_span hc hnonneg hs0 hne

/-- Witness for `C6_utilization_unit` on the run with arrivals `[0, 1, 2]`,
service time 8 and one scanner, whose utilization is 1. -/
theorem C6_witness :
    0 ≤ (RunResult.mk (2/5) (7/60) (1/3) (15/2) 1).utilization ∧
    (RunResult.mk (2/5) (7/60) (1/3) (15/2) 1).utilization ≤ 1 :=
  C6_utilization_unit [0, 1, 2] 8 1 ⟨2/5, 7/60, 1/3, 15/2, 1⟩ (by norm_num) (by
    norm_num [run_simulation, total_entry_time, pythonMax, waitSamples, queueSamples,
      total_scan_time, waitTime, queueLenAt, startTime, startTimeAux, arrivalFn,
      List.range_succ, List.filter])

/-- Claim C2: for every completed run the aggregator computes the span
`total_entry_time` as maximum arrival + global maximum wait + one service
duration, and that span can equal the true makespan (time of the last
departure) only when some last-arriving entity (maximal arrival time) also
attains the maximal wait; the second conjunct shows a run (arrivals
`[0, 1, 100]`, one scanner, service time 8) where the two differ
(115 versus 108). -/
theorem C2_span_vs_makespan :
    (∀ (a : List ℚ) (s : ℚ) (c : ℕ) (r : RunResult),
      run_simulation a s c = Except.ok r →
        total_entry_time a s c =
          pythonMax a + pythonMax (waitSamples a s c) + s ∧
        (total_entry_time a s c = makespan a s c →
          ∃ i, i < a.length ∧ arrivalFn a i = pythonMax a ∧
            waitTime (arrivalFn a) s c i = pythonMax (waitSamples a s c))) ∧
    total_entry_time [0, 1, 100] 8 1 ≠ makespan [0, 1, 100] 8 1 := by
  constructor
  · intro a s c r hrun
    rcases run_simulation_ok hrun with ⟨-, -, -, hne, -, -⟩
    refine ⟨rfl, ?_⟩
    intro heq
    have hNpos : 0 < a.length := List.length_pos.mpr hne
    have hdne : (List.range a.length).map
        (fun i => startTime (arrivalFn a) s c i + s) ≠ [] := by
      simp only [ne_eq, List.map_eq_nil_iff, List.range_eq_nil]
      omega
    rcases List.mem_map.mp (pythonMax_mem hdne) with ⟨i, hiR, hieq⟩
    have hiN : i < a.length := List.mem_range.mp hiR
    have hms : startTime (arrivalFn a) s c i + s = makespan a s c := hieq
    have heq2 : pythonMax a + pythonMax (waitSamples a s c) + s =
        makespan a s c := heq
    have hsplit : startTime (arrivalFn a) s c i =
        arrivalFn a i + waitTime (arrivalFn a) s c i := by
      unfold waitTime
      ring
    have hA : arrivalFn a i ≤ pythonMax a := le_pythonMax (arrivalFn_mem hiN)
    have hW : waitTime (arrivalFn a) s c i ≤ pythonMax (waitSamples a s c) :=
      le_pythonMax (waitTime_mem_samples hiN)
    refine ⟨i, hiN, by linarith, by linarith⟩
  · norm_num [total_entry_time, makespan, pythonMax, waitSamples, waitTime,
      startTime, startTimeAux, arrivalFn, List.range_succ]

/-- Witness for the universally quantified part of `C2_span_vs_makespan`,
instantiated on the completed run with arrivals `[0, 1, 2]`. -/
theorem C2_witness :
    total_entry_time [0, 1, 2] 8 1 =
      pythonMax [0, 1, 2] + pythonMax (waitSamples [0, 1, 2] 8 1) + 8 ∧
    (total_entry_time [0, 1, 2] 8 1 = makespan [0, 1, 2] 8 1 →
      ∃ i, i < ([0, 1, 2] : List ℚ).length ∧
        arrivalFn [0, 1, 2] i = pythonMax [0, 1, 2] ∧
        waitTime (arrivalFn [0, 1, 2]) 8 1 i =
          pythonMax (waitSamples [0, 1, 2] 8 1)) :=
  C2_span_vs_makespan.1 [0, 1, 2] 8 1 ⟨2/5, 7/60, 1/3, 15/2, 1⟩ (by
    norm_num [run_simulation, total_entry_time, pythonMax, waitSamples, queueSamples,
      total_scan_time, waitTime, queueLenAt, startTime, startTimeAux, arrivalFn,
      List.range_succ, List.filter])

/-- Counterexample to claim C1 as stated: for the run with 3 entities,
service duration 8, capacity 1 and arrivals `[0, 1, 2]`, the returned
RunResult holds span `2/5` (minutes), mean wait `7/60` (minutes) and
throughput `15/2` (per minute) — not the claimed 24, 7 and `1/8`, which are
the same quantities in seconds. The utilization 1.0 does match. -/
theorem C1_counterexample :
    run_simulation [0, 1, 2] 8 1 = Except.ok ⟨2/5, 7/60, 1/3, 15/2, 1⟩ ∧
    (2/5 : ℚ) ≠ 24 ∧ (7/60 : ℚ) ≠ 7 ∧ (15/2 : ℚ) ≠ 1/8 := by
  refine ⟨?_, by norm_num, by norm_num, by norm_num⟩
  norm_num [run_simulation, total_entry_time, pythonMax, waitSamples, queueSamples,
    total_scan_time, waitTime, queueLenAt, startTime, startTimeAux, arrivalFn,
    List.range_succ, List.filter]

/-- Claim C1 as amended: in the scenario with 3 entities, service duration
8, capacity 1 and arrivals `[0, 1, 2]`, the aggregator internally computes
wait samples `[0, 7, 14]`, mean wait 7 and span 24 (seconds), and
utilization `24 / (1 * 24) = 1`; the returned result reports the span and
mean wait divided by 60 and the throughput per minute,
`3 / (24/60) = 7.5` (which is `0.125` per second). -/
theorem C1_amended :
    total_entry_time [0, 1, 2] 8 1 = 24 ∧
    waitSamples [0, 1, 2] 8 1 = [0, 7, 14] ∧
    (waitSamples [0, 1, 2] 8 1).sum / ([0, 1, 2] : List ℚ).length = 7 ∧
    run_simulation [0, 1, 2] 8 1 =
      Except.ok ⟨24/60, 7/60, 1/3, (3 : ℚ)/(24/60), 24/(1 * 24)⟩ := by
  refine ⟨?_, ?_, ?_, ?_⟩ <;>
    norm_num [run_simulation, total_entry_time, pythonMax, waitSamples, queueSamples,
      total_scan_time, waitTime, queueLenAt, startTime, startTimeAux, arrivalFn,
      List.range_succ, List.filter]


/-- Counterexample to claim C5 as stated: an invocation whose window is
malformed (`T1 = 0 ≤ 10 = T0`) does not fail with any error — generation
draws from the reversed interval and the run proceeds to a normal result. -/
theorem C5_counterexample :
    run_simulation (arrival_times 1 10 0 (fun _ => 0)) 8 1 =
      Except.ok ⟨3/10, 0, 0, 10/3, 4/9⟩ ∧
    (Except.ok (RunResult.mk (3/10) 0 0 (10/3) (4/9)) :
      Except SimError RunResult) ≠ Except.error SimError.InvalidParameter := by
  constructor
  · norm_num [arrival_times, uniform, run_simulation, total_entry_time, pythonMax,
      waitSamples, queueSamples, total_scan_time, waitTime, queueLenAt, startTime,
      startTimeAux, arrivalFn, List.range_succ, List.filter, List.insertionSort,
      List.orderedInsert]
  · simp

/-- Claim C5 as amended: a non-positive capacity fails synchronously at
resource construction, and a negative service duration or a negative
arrival time fails when the simulation runs (the kinds the design calls
`InvalidParameter`); but a malformed window (`T1 ≤ T0`) is never detected —
the run completes normally on draws from the reversed interval — and a zero
entity count is not rejected at generation, failing only later at
aggregation with the empty-run error kind. -/
theorem C5_amended :
    (∀ (a : List ℚ) (s : ℚ), run_simulation a s 0 =
      Except.error SimError.InvalidParameter) ∧
    (∀ (a : List ℚ) (s : ℚ) (c : ℕ), c ≠ 0 → s < 0 →
      run_simulation a s c = Except.error SimError.InvalidParameter) ∧
    (∀ (a : List ℚ) (s : ℚ) (c : ℕ) (x : ℚ), c ≠ 0 → x ∈ a → x < 0 →
      run_simulation a s c = Except.error SimError.InvalidParameter) ∧
    (∀ (T0 T1 : ℚ) (u : ℕ → ℚ) (s : ℚ) (c : ℕ), c ≠ 0 → 0 ≤ s →
      run_simulation (arrival_times 0 T0 T1 u) s c =
        Except.error SimError.EmptyRunError) ∧
    run_simulation (arrival_times 1 10 0 (fun _ => 0)) 8 1 =
      Except.ok ⟨3/10, 0, 0, 10/3, 4/9⟩ := by
  refine ⟨?_, ?_, ?_, ?_, ?_⟩
  · intro a s
    unfold run_simulation
    rw [if_pos rfl]
  · intro a s c hc hs
    unfold run_simulation
    rw [if_neg hc]
    have hg : (a.any (fun t => decide (t < 0)) || decide (s < 0)) = true := by
      rw [Bool.or_eq_true]
      exact Or.inr (decide_eq_true hs)
    rw [hg, if_pos rfl]
  · intro a s c x hc hx hxneg
    unfold run_simulation
    rw [if_neg hc]
    have hg : (a.any (fun t => decide (t < 0)) || decide (s < 0)) = true := by
      rw [Bool.or_eq_true]
      exact Or.inl (List.any_eq_true.mpr ⟨x, hx, decide_eq_true hxneg⟩)
    rw [hg, if_pos rfl]
  · intro T0 T1 u s c hc hs
    have hnil : arrival_times 0 T0 T1 u = [] := rfl
    rw [hnil]
    unfold run_simulation
    rw [if_neg hc]
    have hg : (([] : List ℚ).any (fun t => decide (t < 0)) || decide (s < 0)) =
        false := by
      simp only [Bool.or_eq_false_iff, List.any_nil, decide_eq_false_iff_not,
        not_lt]
      exact ⟨trivial, hs⟩
    rw [hg]
    simp only [Bool.false_eq_true, if_false]
    have hemp : ([] : List ℚ).isEmpty = true := rfl
    rw [if_pos hemp]
  · norm_num [arrival_times, uniform, run_simulation, total_entry_time, pythonMax,
      waitSamples, queueSamples, total_scan_time, waitTime, queueLenAt, startTime,
      startTimeAux, arrivalFn, List.range_succ, List.filter, List.insertionSort,
      List.orderedInsert]

/-- Witness for `C5_amended` at concrete invocations of each clause. -/
theorem C5_amended_witness :
    run_simulation [0] 8 0 = Except.error SimError.InvalidParameter ∧
    run_simulation [0] (-1) 1 = Except.error SimError.InvalidParameter ∧
    run_simulation [-1] 8 1 = Except.error SimError.InvalidParameter ∧
    run_simulation (arrival_times 0 0 2400 (fun _ => 0)) 8 1 =
      Except.error SimError.EmptyRunError :=
  ⟨C5_amended.1 [0] 8,
   C5_amended.2.1 [0] (-1) 1 (by norm_num) (by norm_num),
   C5_amended.2.2.1 [-1] 8 1 (-1) (by norm_num) (by simp) (by norm_num),
   C5_amended.2.2.2.1 0 2400 (fun _ => 0) 8 1 (by norm_num) (by norm_num)⟩

/-- Claim C9: the driving loop threads the arrival sequence through all
five runs unmodified — if the sweep completes, the final arrival sequence
equals the initial one, and each capacity 5, 10, 20, 30, 35 was simulated
against that identical sequence (the sequence is generated once, before any
run, at module level; `run_simulation` only reads it). -/
theorem C9_arrival_frame (a a2 : List ℚ) (rs : List RunResult)
    (h : runSweep a = Except.ok (a2, rs)) :
    a2 = a ∧ ∃ r1 r2 r3 r4 r5,
      run_simulation a 8 5 = Except.ok r1 ∧
      run_simulation a 8 10 = Except.ok r2 ∧
      run_simulation a 8 20 = Except.ok r3 ∧
      run_simulation a 8 30 = Except.ok r4 ∧
      run_simulation a 8 35 = Except.ok r5 ∧
      rs = [r1, r2, r3, r4, r5] := by
  unfold runSweep capacitiesSweep at h
  replace h : (sweepStep (a, []) 5 >>= fun st =>
      ([10, 20, 30, 35] : List ℕ).foldlM sweepStep st) = Except.ok (a2, rs) := h
  rcases h1 : run_simulation a 8 5 with e | r1
  · have hstep : sweepStep (a, []) 5 = Except.error e := by
      simp only [sweepStep]
      rw [h1]
      rfl
    rw [hstep] at h
    exact Except.noConfusion h
  have hstep1 : sweepStep (a, []) 5 = Except.ok (a, [r1]) := by
    simp only [sweepStep]
    rw [h1]
    rfl
  rw [hstep1] at h
  replace h : (sweepStep (a, [r1]) 10 >>= fun st =>
      ([20, 30, 35] : List ℕ).foldlM sweepStep st) = Except.ok (a2, rs) := h
  rcases h2 : run_simulation a 8 10 with e | r2
  · have hstep : sweepStep (a, [r1]) 10 = Except.error e := by
      simp only [sweepStep]
      rw [h2]
      rfl
    rw [hstep] at h
    exact Except.noConfusion h
  have hstep2 : sweepStep (a, [r1]) 10 = Except.ok (a, [r1, r2]) := by
    simp only [sweepStep]
    rw [h2]
    rfl
  rw [hstep2] at h
  replace h : (sweepStep (a, [r1, r2]) 20 >>= fun st =>
      ([30, 35] : List ℕ).foldlM sweepStep st) = Except.ok (a2, rs) := h
  rcases h3 : run_simulation a 8 20 with e | r3
  · have hstep : sweepStep (a, [r1, r2]) 20 = Except.error e := by
      simp only [sweepStep]
      rw [h3]
      rfl
    rw [hstep] at h
    exact Except.noConfusion h
  have hstep3 : sweepStep (a, [r1, r2]) 20 = Except.ok (a, [r1, r2, r3]) := by
    simp only [sweepStep]
    rw [h3]
    rfl
  rw [hstep3] at h
  replace h : (sweepStep (a, [r1, r2, r3]) 30 >>= fun st =>
      ([35] : List ℕ).foldlM sweepStep st) = Except.ok (a2, rs) := h
  rcases h4 : run_simulation a 8 30 with e | r4
  · have hstep : sweepStep (a, [r1, r2, r3]) 30 = Except.error e := by
      simp only [sweepStep]
      rw [h4]
      rfl
    rw [hstep] at h
    exact Except.noConfusion h
  have hstep4 : sweepStep (a, [r1, r2, r3]) 30 =
      Except.ok (a, [r1, r2, r3, r4]) := by
    simp only [sweepStep]
    rw [h4]
    rfl
  rw [hstep4] at h
  replace h : (sweepStep (a, [r1, r2, r3, r4]) 35 >>= fun st =>
      ([] : List ℕ).foldlM sweepStep st) = Except.ok (a2, rs) := h
  rcases h5 : run_simulation a 8 35 with e | r5
  · have hstep : sweepStep (a, [r1, r2, r3, r4]) 35 = Except.error e := by
      simp only [sweepStep]
      rw [h5]
      rfl
    rw [hstep] at h
    exact Except.noConfusion h
  have hstep5 : sweepStep (a, [r1, r2, r3, r4]) 35 =
      Except.ok (a, [r1, r2, r3, r4, r5]) := by
    simp only [sweepStep]
    rw [h5]
    rfl
  rw [hstep5] at h
  replace h : (Except.ok (a, [r1, r2, r3, r4, r5]) :
      Except SimError (List ℚ × List RunResult)) = Except.ok (a2, rs) := h
  have hpair : (a, [r1, r2, r3, r4, r5]) = (a2, rs) :=
    (Except.ok.injEq _ _).mp h
  have ha : a = a2 := congrArg Prod.fst hpair
  have hrs : [r1, r2, r3, r4, r5] = rs := congrArg Prod.snd hpair
  exact ⟨ha.symm, r1, r2, r3, r4, r5, rfl, rfl, rfl, rfl, rfl, hrs.symm⟩

/-- Witness for `C9_arrival_frame` on the completed sweep over the
single-entity arrival list `[0]`. -/
theorem C9_witness :
    ([0] : List ℚ) = [0] ∧ ∃ r1 r2 r3 r4 r5,
      run_simulation [0] 8 5 = Except.ok r1 ∧
      run_simulation [0] 8 10 = Except.ok r2 ∧
      run_simulation [0] 8 20 = Except.ok r3 ∧
      run_simulation [0] 8 30 = Except.ok r4 ∧
      run_simulation [0] 8 35 = Except.ok r5 ∧
      ([⟨2/15, 0, 0, 15/2, 1/5⟩, ⟨2/15, 0, 0, 15/2, 1/10⟩,
        ⟨2/15, 0, 0, 15/2, 1/20⟩, ⟨2/15, 0, 0, 15/2, 1/30⟩,
        ⟨2/15, 0, 0, 15/2, 1/35⟩] : List RunResult) = [r1, r2, r3, r4, r5] :=
  C9_arrival_frame [0] [0]
    [⟨2/15, 0, 0, 15/2, 1/5⟩, ⟨2/15, 0, 0, 15/2, 1/10⟩, ⟨2/15, 0, 0, 15/2, 1/20⟩,
     ⟨2/15, 0, 0, 15/2, 1/30⟩, ⟨2/15, 0, 0, 15/2, 1/35⟩] (by
    norm_num [runSweep, capacitiesSweep, List.foldlM, sweepStep, bind, Except.bind,
      pure, Except.pure, Except.map, run_simulation, total_entry_time, pythonMax,
      waitSamples, queueSamples, total_scan_time, waitTime, queueLenAt, startTime,
      startTimeAux, arrivalFn, List.range_succ, List.filter, List.singleton,
      List.sum_cons, List.sum_nil])

end SecurityScan
